import Mathlib

/-!
Verification development for the message-content formatter of the
CodeScrybe frontend (`MessageFormatter` module: `formatInlineText`,
`formatMessageContent` and the block components `CodeBlock`, `CalloutBox`,
`QuoteBlock`).  The JavaScript source is shallowly embedded over
`List Char`; each definition mirrors one function or regex of the source.
The source file is stored in a MacRoman-mojibake encoding, so the emoji
and em-dash literals appear here by their exact code points.
-/

namespace MsgFmt

/-- Strings are modelled as lists of characters. -/
abbrev Str := List Char

/-- The backtick character (code 96). -/
def btick : Char := Char.ofNat 96

/-- JavaScript `\s`: whitespace class used by `trim`, `\s*` and `\s`. -/
def isJsSpace (c : Char) : Bool :=
  c = ' ' || c = '\t' || c = '\n' || c = '\r' ||
  c = Char.ofNat 0x0b || c = Char.ofNat 0x0c ||
  c.val = 0xa0 || c.val = 0x1680 ||
  (0x2000 ≤ c.val && c.val ≤ 0x200a) ||
  c.val = 0x2028 || c.val = 0x2029 || c.val = 0x202f ||
  c.val = 0x205f || c.val = 0x3000 || c.val = 0xfeff

/-- ASCII letters and digits. -/
def isAlphaNum (c : Char) : Bool :=
  ('a' ≤ c && c ≤ 'z') || ('A' ≤ c && c ≤ 'Z') || ('0' ≤ c && c ≤ '9')

/-- JavaScript `\w`: word characters. -/
def isWordChar (c : Char) : Bool := isAlphaNum c || c = '_'

/-- JavaScript `\d`. -/
def isDigitChar (c : Char) : Bool := '0' ≤ c && c ≤ '9'

/-- JavaScript LineTerminator: the characters the dot (without the `s`
flag) refuses to match and at which a multiline `^` or `$` anchors —
line feed, carriage return, line separator, paragraph separator. -/
def isLineTerm (c : Char) : Bool :=
  c = '\n' || c = '\r' || c.val = 0x2028 || c.val = 0x2029

/-- JavaScript `String.prototype.trim` (both ends, `\s` class). -/
def trimStr (s : Str) : Str :=
  ((s.dropWhile isJsSpace).reverse.dropWhile isJsSpace).reverse

/-- Does `p` occur at the start of `s`? -/
def startsList (p s : Str) : Bool := s.take p.length = p

/-- JavaScript `String.prototype.includes`: substring occurrence. -/
def containsSub (p : Str) : Str → Bool
  | [] => p = []
  | c :: rest => startsList p (c :: rest) || containsSub p rest

/-- JavaScript `split('\n')`. -/
def linesOf (s : Str) : List Str := s.splitOn '\n'

/-- An inline fragment: one element of the array produced by
`formatInlineText` (a plain string or a rendered element; the element kind
records which pattern's component produced it). -/
inductive Fragment where
  | text (s : Str)
  | code (s : Str)
  | link (label : Str) (href : Str)
  | bareUrl (s : Str)
  | github (s : Str)
  | email (s : Str)
  | bold (s : Str)
  | italic (s : Str)
  | strike (s : Str)
  | highlight (s : Str)
  deriving DecidableEq, Repr

/-- An anchored matcher for one inline pattern: given the character just
before the anchor (for look-behind / word-boundary) and the remaining
input, return the fragment built by the pattern's component, the last
character of the matched span, and the rest of the input. -/
abbrev Attempt := Option Char → Str → Option (Fragment × Char × Str)

/-- Code spans, the source regex (line 19) written with a backtick B is
`B([^B\n]+(?:\n[^B]*)*?)B`: a backtick, a nonempty first run without
backtick or newline, optionally continued past a newline up to the next
backtick anywhere, then the closing backtick (lazy, so the earliest one). -/
def attemptCode : Attempt := fun _ s =>
  match s with
  | c :: rest =>
    if c = btick then
      let r := rest.takeWhile (fun x => x ≠ btick && x ≠ '\n')
      if r = [] then none
      else
        let rest2 := rest.drop r.length
        match rest2 with
        | d :: rest3 =>
          if d = btick then some (.code r, btick, rest3)
          else if d = '\n' then
            let upto := rest2.takeWhile (fun x => x ≠ btick)
            if upto.length < rest2.length then
              some (.code (r ++ upto), btick, rest2.drop (upto.length + 1))
            else none
          else none
        | [] => none
    else none
  | [] => none

/-- URL normalization inside the markdown-link component
(source lines 31-40): absolute http/https kept, `www.` gets `https://`,
root-relative kept, anything without `://` gets `https://`. -/
def normalizeUrl (u : Str) : Str :=
  if startsList "http://".data u || startsList "https://".data u then u
  else if startsList "www.".data u then "https://".data ++ u
  else if u.head? = some '/' then u
  else if ! containsSub "://".data u then "https://".data ++ u
  else u

/-- Markdown links, regex `\[([^\]]+)\]\(([^)]+)\)` (source line 28). -/
def attemptLink : Attempt := fun _ s =>
  match s with
  | c :: rest =>
    if c = '[' then
      let t := rest.takeWhile (fun x => x ≠ ']')
      if t = [] then none
      else
        match rest.drop t.length with
        | d :: e :: r2 =>
          if d = ']' && e = '(' then
            let u := r2.takeWhile (fun x => x ≠ ')')
            if u = [] then none
            else
              match r2.drop u.length with
              | f :: post => if f = ')' then some (.link t (normalizeUrl u), ')', post) else none
              | [] => none
          else none
        | _ => none
    else none
  | [] => none

/-- Finds the earliest adjacent pair `x y`; returns the part before it and
the part after it. -/
def findClose2 (x y : Char) : Str → Option (Str × Str)
  | [] => none
  | c :: rest =>
    if c = x && rest.head? = some y then some ([], rest.tail)
    else (findClose2 x y rest).map (fun r => (c :: r.1, r.2))

/-- Bold, regex `\*\*([^*\n]+(?:\*(?!\*)[^*\n]*)*)\*\*` (source line 111):
after the opening pair the content runs to the earliest closing pair, may
contain single stars, must be nonempty, must not begin with a star and
must not contain a newline. -/
def attemptBold : Attempt := fun _ s =>
  match s with
  | a :: b :: rest =>
    if a = '*' && b = '*' then
      match findClose2 '*' '*' rest with
      | some (content, post) =>
        if content ≠ [] && content.head? ≠ some '*' && ! content.contains '\n' then
          some (.bold content, '*', post)
        else none
      | none => none
    else none
  | _ => none

/-- Italic, regex `(?<!\*)\*([^*\n]+)\*(?!\*)` (source line 120). -/
def attemptItalic : Attempt := fun prev s =>
  match s with
  | c :: rest =>
    if c = '*' && prev ≠ some '*' then
      let content := rest.takeWhile (fun x => x ≠ '*' && x ≠ '\n')
      if content = [] then none
      else
        match rest.drop content.length with
        | d :: post =>
          if d = '*' && post.head? ≠ some '*' then some (.italic content, '*', post)
          else none
        | [] => none
    else none
  | [] => none

/-- Strikethrough, regex `~~([^~\n]+)~~` (source line 129). -/
def attemptStrike : Attempt := fun _ s =>
  match s with
  | a :: b :: rest =>
    if a = '~' && b = '~' then
      let content := rest.takeWhile (fun x => x ≠ '~' && x ≠ '\n')
      if content = [] then none
      else
        match rest.drop content.length with
        | d :: e :: post => if d = '~' && e = '~' then some (.strike content, '~', post) else none
        | _ => none
    else none
  | _ => none

/-- Highlight, regex `==([^=\n]+)==` (source line 138). -/
def attemptHighlight : Attempt := fun _ s =>
  match s with
  | a :: b :: rest =>
    if a = '=' && b = '=' then
      let content := rest.takeWhile (fun x => x ≠ '=' && x ≠ '\n')
      if content = [] then none
      else
        match rest.drop content.length with
        | d :: e :: post => if d = '=' && e = '=' then some (.highlight content, '=', post) else none
        | _ => none
    else none
  | _ => none

/-- `[n, n-1, ..., 1]`: the order a greedy bounded quantifier tries
lengths when backtracking. -/
def descRange (n : Nat) : List Nat := (List.range n).reverse.map (· + 1)

/-- Character class `[-a-zA-Z0-9@:%._\+~#=]` of the bare-URL regex. -/
def isUrlA (c : Char) : Bool :=
  isAlphaNum c || c = '-' || c = '@' || c = ':' || c = '%' || c = '.' ||
  c = '_' || c = '+' || c = '~' || c = '#' || c = '='

/-- Character class `[a-zA-Z0-9()]` of the bare-URL regex. -/
def isUrlB (c : Char) : Bool := isAlphaNum c || c = '(' || c = ')'

/-- Character class `[-a-zA-Z0-9()@:%_\+.~#?&=]` of the bare-URL regex. -/
def isUrlC (c : Char) : Bool :=
  isAlphaNum c || c = '-' || c = '(' || c = ')' || c = '@' || c = ':' ||
  c = '%' || c = '_' || c = '+' || c = '.' || c = '~' || c = '#' ||
  c = '?' || c = '&' || c = '='

/-- Bare URLs (source line 58), regex
`(?:https?:\/\/)?(?:www\.)?[-…]{1,256}\.[a-zA-Z0-9()]{1,6}\b(?:[-…]*)`,
with the backtracking order of the optional groups and the greedy bounded
quantifiers made explicit.  (The pattern has no capture group, so at
render time its component receives the React key in place of a URL; that
is presentation-level and the pass is unreachable anyway, see the
invariant theorems below.) -/
def attemptUrl : Attempt := fun _ s =>
  let schemeOpts : List Nat :=
    if startsList "https://".data s then [8, 0]
    else if startsList "http://".data s then [7, 0]
    else [0]
  schemeOpts.findSome? fun sc =>
    let s1 := s.drop sc
    let wwwOpts : List Nat := if startsList "www.".data s1 then [4, 0] else [0]
    wwwOpts.findSome? fun ww =>
      let s2 := s1.drop ww
      let arun := (s2.takeWhile isUrlA).length
      (descRange (min arun 256)).findSome? fun k =>
        if (s2.drop k).head? = some '.' then
          let s3 := s2.drop (k + 1)
          let brun := (s3.takeWhile isUrlB).length
          (descRange (min brun 6)).findSome? fun j =>
            let lw := match s3.get? (j - 1) with | some c => isWordChar c | none => false
            let next := (s3.drop j).head?
            if lw != (match next with | some c => isWordChar c | none => false) then
              let crun := ((s3.drop j).takeWhile isUrlC).length
              let total := sc + ww + k + 1 + j + crun
              some (.bareUrl (s.take total), (s.take total).getLastD ' ', s.drop total)
            else none
        else none

/-- Character class `[\w\-\.]` of the GitHub-link regex. -/
def isGhChar (c : Char) : Bool := isWordChar c || c = '-' || c = '.'

/-- GitHub links (source line 78), regex
`(?:https?:\/\/)?github\.com\/[\w\-\.]+\/[\w\-\.]+(?:\/[^\s]*)?`. -/
def attemptGithub : Attempt := fun _ s =>
  let schemeOpts : List Nat :=
    if startsList "https://".data s then [8, 0]
    else if startsList "http://".data s then [7, 0]
    else [0]
  schemeOpts.findSome? fun sc =>
    let s1 := s.drop sc
    if startsList "github.com/".data s1 then
      let s2 := s1.drop 11
      let r1 := s2.takeWhile isGhChar
      if r1 = [] then none
      else
        match s2.drop r1.length with
        | c :: s3 =>
          if c = '/' then
            let r2 := s3.takeWhile isGhChar
            if r2 = [] then none
            else
              let s4 := s3.drop r2.length
              let tailLen :=
                match s4.head? with
                | some d => if d = '/' then 1 + ((s4.drop 1).takeWhile (fun x => ! isJsSpace x)).length else 0
                | none => 0
              let total := sc + 11 + r1.length + 1 + r2.length + tailLen
              some (.github (s.take total), (s.take total).getLastD ' ', s.drop total)
          else none
        | [] => none
    else none

/-- Character class `[A-Za-z0-9._%+-]` of the email regex. -/
def isEmailLocal (c : Char) : Bool :=
  isAlphaNum c || c = '.' || c = '_' || c = '%' || c = '+' || c = '-'

/-- Character class `[A-Za-z0-9.-]` of the email regex. -/
def isEmailDomain (c : Char) : Bool := isAlphaNum c || c = '.' || c = '-'

/-- Character class `[A-Z|a-z]` of the email regex (it literally contains
the bar character). -/
def isEmailTld (c : Char) : Bool :=
  ('a' ≤ c && c ≤ 'z') || ('A' ≤ c && c ≤ 'Z') || c = '|'

/-- Email addresses (source line 98), regex
`\b[A-Za-z0-9._%+-]+@[A-Za-z0-9.-]+\.[A-Z|a-z]{2,}\b`. -/
def attemptEmail : Attempt := fun prev s =>
  match s.head? with
  | none => none
  | some c0 =>
    let pw := match prev with | some p => isWordChar p | none => false
    if isEmailLocal c0 && pw != isWordChar c0 then
      let lrun := s.takeWhile isEmailLocal
      match s.drop lrun.length with
      | a :: s2 =>
        if a = '@' then
          let drun := (s2.takeWhile isEmailDomain).length
          (descRange drun).findSome? fun k =>
            if (s2.drop k).head? = some '.' then
              let s3 := s2.drop (k + 1)
              let trun := (s3.takeWhile isEmailTld).length
              ((descRange trun).filter (fun t => 2 ≤ t)).findSome? fun t =>
                let lastT := match s3.get? (t - 1) with | some c => isWordChar c | none => false
                if lastT != (match (s3.drop t).head? with | some c => isWordChar c | none => false) then
                  let total := lrun.length + 1 + k + 1 + t
                  some (.email (s.take total), (s.take total).getLastD ' ', s.drop total)
                else none
            else none
        else none
      | [] => none
    else none

/-- Leftmost-match search: try the anchored matcher at every position from
left to right, threading the previous character for look-behind.  Returns
the text before the match, the fragment, the last matched character and
the rest. -/
def findFrom (a : Attempt) (prev : Option Char) : Str → Option (Str × Fragment × Char × Str)
  | [] =>
    match a prev [] with
    | some (f, lc, post) => some ([], f, lc, post)
    | none => none
  | c :: rest =>
    match a prev (c :: rest) with
    | some (f, lc, post) => some ([], f, lc, post)
    | none => (findFrom a (some c) rest).map (fun r => (c :: r.1, r.2.1, r.2.2.1, r.2.2.2))

/-- One pattern pass of the source's while-exec loop (source lines
150-180): emit the text before each match (when nonempty) and the match's
fragment, then the remaining text (when nonempty).  Fuel bounds the
recursion; every pattern consumes at least one character so the initial
fuel `length + 1` is never exhausted. -/
def scanGo (fuel : Nat) (a : Attempt) (prev : Option Char) (s : Str) : List Fragment :=
  match fuel with
  | 0 => if s = [] then [] else [.text s]
  | fuel + 1 =>
    match findFrom a prev s with
    | none => if s = [] then [] else [.text s]
    | some (pre, f, lc, post) =>
      (if pre = [] then [] else [.text pre]) ++ f :: scanGo fuel a (some lc) post

/-- All matches of one pattern over a string (the `parts` array after one
pass of the source's loop). -/
def scanParts (a : Attempt) (s : Str) : List Fragment := scanGo (s.length + 1) a none s

/-- The mutable `result` of `formatText`: a string until some pass
produced a parts array, a fragment array afterwards. -/
inductive StrOrFrags where
  | str (s : Str)
  | frags (l : List Fragment)
  deriving DecidableEq, Repr

/-- One iteration of `patterns.forEach` (source lines 148-187): a pass
runs only while `result` is still a string, and replaces it by `parts`
whenever `parts` is nonempty — which, for a nonempty string, is the case
even when the pattern found no match, because the remaining text is
pushed. -/
def applyPass (r : StrOrFrags) (a : Attempt) : StrOrFrags :=
  match r with
  | .frags l => .frags l
  | .str s =>
    let parts := scanParts a s
    if parts = [] then .str s else .frags parts

/-- The nine inline patterns, in source order (lines 16-145): code spans,
markdown links, bare URLs, GitHub links, emails, bold, italic,
strikethrough, highlight. -/
def patterns : List Attempt :=
  [attemptCode, attemptLink, attemptUrl, attemptGithub, attemptEmail,
   attemptBold, attemptItalic, attemptStrike, attemptHighlight]

/-- `formatInlineText` (source lines 5-194): empty input yields nothing,
otherwise the pattern passes are folded over the input and the final
value is returned as an array. -/
def inlineItems (s : Str) : List Fragment :=
  if s = [] then []
  else
    match patterns.foldl applyPass (.str s) with
    | .str t => [.text t]
    | .frags l => l

/-! ## Block layer: `formatMessageContent` (source lines 457-710) -/

/-- Position (from the end) bookkeeping: index of the first newline. -/
def posOfNl : Str → Nat
  | [] => 0
  | c :: r => if c = '\n' then 0 else posOfNl r + 1

/-- One match of the section splitter `/\n\s*\n+/` (source line 466): the
leftmost newline whose following whitespace run contains another newline;
the greedy match extends through the last newline of that run.  Returns
the text before the match and the text after it. -/
def findSecSplit : Str → Option (Str × Str)
  | [] => none
  | c :: rest =>
    if c = '\n' && (rest.takeWhile isJsSpace).contains '\n' then
      let w := rest.takeWhile isJsSpace
      let k := w.length - 1 - posOfNl w.reverse
      some ([], rest.drop (k + 1))
    else (findSecSplit rest).map (fun r => (c :: r.1, r.2))

/-- `split(/\n\s*\n+/)`, by repeated leftmost matching.  Every match
consumes at least two characters, so the fuel is never exhausted. -/
def splitSecs (fuel : Nat) (s : Str) : List Str :=
  match fuel with
  | 0 => [s]
  | fuel + 1 =>
    match findSecSplit s with
    | none => [s]
    | some (pre, rest) => pre :: splitSecs fuel rest

/-- The top-level sections of a sanitized message. -/
def sections (s : Str) : List Str := splitSecs (s.length + 1) s

/-- A part of a section containing code fences: interleaved text and code
blocks (source lines 475-519). -/
inductive CodePart where
  | text (s : Str)
  | code (code : Str) (lang : Str)
  deriving DecidableEq, Repr

/-- The semantic category a `CalloutBox` detects (source lines 390-402). -/
inductive CalloutKind where
  | info | warning | error | success | tip | performance
  deriving DecidableEq, Repr

/-- One rendered block (the parse result of one section). -/
inductive Node where
  | codeSection (parts : List CodePart)
  | quote (content : Str) (author : Option Str)
  | callout (emoji : Str) (title : Str) (content : Str) (ctype : CalloutKind)
  | bulletList (items : List (Nat × Str))
  | numberedList (items : List (Nat × Str))
  | table (headers : List Str) (rows : List (List Str))
  | heading (level : Nat) (title : Str)
  | rule
  | paragraph (text : Str)
  deriving DecidableEq, Repr

/-- Earliest occurrence of a triple backtick; returns the part before and
the part after it. -/
def findTicks : Str → Option (Str × Str)
  | [] => none
  | c :: rest =>
    if c = btick && rest.take 2 = [btick, btick] then some ([], rest.drop 2)
    else (findTicks rest).map (fun r => (c :: r.1, r.2))

/-- One match of the fence regex (written with a backtick B as)
`BBB(\w*)\n?([\s\S]*?)BBB` (source line 473): an opening triple backtick,
a word-character run as the language, an optional newline, then the lazy
content up to the earliest closing triple backtick.  On failure the scan
advances one character. -/
def findFence : Str → Option (Str × Str × Str × Str)
  | [] => none
  | c :: rest =>
    if c = btick && rest.take 2 = [btick, btick] then
      let r3 := rest.drop 2
      let lang := r3.takeWhile isWordChar
      let r4 := r3.drop lang.length
      let r5 := if r4.head? = some '\n' then r4.tail else r4
      match findTicks r5 with
      | some (content, post) => some ([], lang, content, post)
      | none => (findFence rest).map (fun r => (c :: r.1, r.2))
    else (findFence rest).map (fun r => (c :: r.1, r.2))

/-- The fence branch's while-exec loop (source lines 482-519): trimmed
text before each fence (when nonempty), the trimmed code with its
language (empty language becomes `text`), then the trimmed remainder. -/
def fenceGo (fuel : Nat) (s : Str) : List CodePart :=
  match fuel with
  | 0 => if trimStr s = [] then [] else [.text (trimStr s)]
  | fuel + 1 =>
    match findFence s with
    | none => if trimStr s = [] then [] else [.text (trimStr s)]
    | some (pre, lang, code, post) =>
      (if trimStr pre = [] then [] else [.text (trimStr pre)]) ++
        .code (trimStr code) (if lang = [] then "text".data else lang) :: fenceGo fuel post

/-- `line.replace(/^>\s*/, '')` (source line 532): the marker and the
whitespace after it are removed only when the line starts with `>`
without indentation. -/
def stripQuote (line : Str) : Str :=
  if line.head? = some '>' then line.tail.dropWhile isJsSpace else line

/-- The em-dash separator of the quote-author regex, as the source file
stores it (mojibake of U+2014). -/
def emDash : Str := [Char.ofNat 0x201A, Char.ofNat 0xC4, Char.ofNat 0xEE]

/-- The author split `/^(.*?)\s*—\s*(.+)$/s` (source line 535): the
earliest em-dash that still leaves at least one character after it splits
the quote; group 1 is the text before it and group 2 the text after it
(up to surrounding whitespace, which the subsequent `.trim()` calls
remove anyway). -/
def findAuthor : Str → Option (Str × Str)
  | [] => none
  | c :: rest =>
    if startsList emDash (c :: rest) && (c :: rest).drop emDash.length ≠ [] then
      some ([], (c :: rest).drop emDash.length)
    else (findAuthor rest).map (fun r => (c :: r.1, r.2))

/-- The `>`-filtered, marker-stripped lines of a quote block, rejoined
(source lines 530-534). -/
def quoteContent (b : Str) : Str :=
  List.intercalate ['\n'] (((linesOf b).filter (fun l => (trimStr l).head? = some '>')).map stripQuote)

/-- The quote branch (source lines 529-554). -/
def quoteNode (b : Str) : Node :=
  match findAuthor (quoteContent b) with
  | some (content, author) => .quote (trimStr content) (some (trimStr author))
  | none => .quote (quoteContent b) none

/-- Character class `[^\s\w]` of the callout regex: neither whitespace
nor a word character. -/
def isSymbolChar (c : Char) : Bool := ! isJsSpace c && ! isWordChar c

/-- `[n, n-1, ..., 0]`: the backtracking order of a greedy star. -/
def descRange0 (n : Nat) : List Nat := (List.range (n + 1)).reverse

/-- One candidate of the callout regex
`^([^\s\w]*)\s*\*\*(.*?)\*\*\s*([\s\S]*)` (source line 557) with the
leading symbol run fixed to length `e`: the whitespace run after it is
forced, then the opening pair, the title up to the earliest closing pair
(failing on any line terminator, which the dot cannot match), then the
content with its leading whitespace absorbed. -/
def calloutAttempt (b : Str) (e : Nat) : Option (Str × Str × Str) :=
  let after := b.drop e
  let w := after.takeWhile isJsSpace
  let p := after.drop w.length
  if p.take 2 = ['*', '*'] then
    match findClose2 '*' '*' (p.drop 2) with
    | some (t, c) =>
      if t.any isLineTerm then none
      else some (b.take e, t, c.dropWhile isJsSpace)
    | none => none
  else none

/-- The callout regex match: the greedy symbol run backtracks from its
maximal length down to the empty run. -/
def calloutMatch (b : Str) : Option (Str × Str × Str) :=
  (descRange0 (b.takeWhile isSymbolChar).length).findSome? (calloutAttempt b)

/-- ASCII lowering, modelling `toLowerCase` on the ASCII keywords the
detector compares against. -/
def lowerStr (s : Str) : Str :=
  s.map (fun c => if 'A' ≤ c && c ≤ 'Z' then Char.ofNat (c.toNat + 32) else c)

/-- The emoji literals of `detectType` (source lines 395-399), by code
point as the mojibake source stores them. -/
def emoWarn1 : Str := [Char.ofNat 0x201A, Char.ofNat 0xF6, Char.ofNat 0x2020, Char.ofNat 0xD4, Char.ofNat 0x220F, Char.ofNat 0xE8]

/-- Second warning emoji literal. -/
def emoWarn2 : Str := [Char.ofNat 0x201A, Char.ofNat 0xF9, Char.ofNat 0xF3]

/-- First error emoji literal. -/
def emoErr1 : Str := [Char.ofNat 0x201A, Char.ofNat 0xF9, Char.ofNat 0xE5]

/-- Second error emoji literal. -/
def emoErr2 : Str := [Char.ofNat 0xF8FF, Char.ofNat 0xFC, Char.ofNat 0xF6, Char.ofNat 0xB4]

/-- First success emoji literal. -/
def emoSuc1 : Str := [Char.ofNat 0x201A, Char.ofNat 0xFA, Char.ofNat 0xD6]

/-- Second success emoji literal. -/
def emoSuc2 : Str := [Char.ofNat 0x201A, Char.ofNat 0xFA, Char.ofNat 0xEE, Char.ofNat 0xD4, Char.ofNat 0x220F, Char.ofNat 0xE8]

/-- First tip emoji literal. -/
def emoTip1 : Str := [Char.ofNat 0xF8FF, Char.ofNat 0xFC, Char.ofNat 0xED, Char.ofNat 0xB0]

/-- Second tip emoji literal. -/
def emoTip2 : Str := [Char.ofNat 0xF8FF, Char.ofNat 0xFC, Char.ofNat 0xEE, Char.ofNat 0xE7]

/-- First performance emoji literal. -/
def emoPerf1 : Str := [Char.ofNat 0xF8FF, Char.ofNat 0xFC, Char.ofNat 0xEE, Char.ofNat 0x2022]

/-- Second performance emoji literal. -/
def emoPerf2 : Str := [Char.ofNat 0x201A, Char.ofNat 0xF6, Char.ofNat 0xB0]

/-- `CalloutBox.detectType` (source lines 390-402): the emoji string is
compared as-is, the title and content strings lowercased; the first
matching rule wins and everything else is `info`. -/
def detectType (emoji title content : Str) : CalloutKind :=
  let es := emoji
  let ts := lowerStr title
  let cs := lowerStr content
  if containsSub emoWarn1 es || containsSub emoWarn2 es ||
     containsSub "warning".data ts || containsSub "warning".data cs then .warning
  else if containsSub emoErr1 es || containsSub emoErr2 es ||
     containsSub "error".data ts || containsSub "error".data cs then .error
  else if containsSub emoSuc1 es || containsSub emoSuc2 es ||
     containsSub "success".data ts || containsSub "success".data cs then .success
  else if containsSub emoTip1 es || containsSub emoTip2 es ||
     containsSub "tip".data ts || containsSub "note".data ts then .tip
  else if containsSub emoPerf1 es || containsSub emoPerf2 es ||
     containsSub "performance".data ts || containsSub "speed".data ts then .performance
  else if containsSub "analysis".data ts || containsSub "result".data ts then .info
  else .info

/-- The bullet markers `[‚Ä¢*-]` (source line 571): the source stores the
bullet sign U+2022 as its three-character mojibake, so the class holds
those three characters plus the star and the hyphen. -/
def isMarker (c : Char) : Bool :=
  c = Char.ofNat 0x201A || c = Char.ofNat 0xC4 || c = Char.ofNat 0xA2 || c = '*' || c = '-'

/-- The suffixes of a string starting at each line start: the anchors of
a multiline `^`, which sits after every line terminator (for a CRLF pair,
both between and after the two characters). -/
def lineAnchors : Str → List Str := fun s => s :: go s
where
  go : Str → List Str
    | [] => []
    | c :: rest => if isLineTerm c then rest :: go rest else go rest

/-- The bullet predicate `/^[\s]*[‚Ä¢*-]\s/m` (source line 571): at some
line start, a whitespace run (which may cross line breaks), a marker and
one whitespace character. -/
def bulletP (b : Str) : Bool :=
  (lineAnchors b).any fun a =>
    match a.dropWhile isJsSpace with
    | m :: c :: _ => isMarker m && isJsSpace c
    | _ => false

/-- The item regex `/^(\s*)[‚Ä¢*-]\s(.+)$/` applied to one line (source
line 574): captured indentation, a marker, one whitespace character and a
nonempty rest that the dot can cover — so a rest containing a line
terminator (such as the carriage return a CRLF line keeps after the
newline split) never matches, since the unflagged `$` must sit at the
very end. -/
def bulletItemMatch (line : Str) : Option (Str × Str) :=
  let ind := line.takeWhile isJsSpace
  match line.drop ind.length with
  | m :: c :: cs =>
    if isMarker m && isJsSpace c && cs ≠ [] && ! cs.any isLineTerm then some (ind, cs) else none
  | _ => none

/-- The nonempty (after trimming) lines of a section — the `filter(line =>
line.trim())` applied in the list and table branches. -/
def tLines (b : Str) : List Str := (linesOf b).filter (fun l => trimStr l ≠ [])

/-- The bullet-list items (source lines 572-587): lines are mapped through
the item regex, nesting level is the indentation length halved, and
non-matching lines become `null` and are filtered away. -/
def bulletItems (b : Str) : List (Nat × Str) :=
  ((tLines b).map (fun line =>
    (bulletItemMatch line).map (fun p => (p.1.length / 2, p.2)))).reduceOption

/-- The numbered predicate `/^\d+\.\s/m` (source line 597). -/
def numberedP (b : Str) : Bool :=
  (lineAnchors b).any fun a =>
    let d := a.takeWhile isDigitChar
    d ≠ [] &&
      match a.drop d.length with
      | p :: c :: _ => p = '.' && isJsSpace c
      | _ => false

/-- The item regex `/^\d+\.\s(.+)$/` applied to one line (source
line 600): like the bullet item regex, the captured rest must be nonempty
and free of line terminators for the dot to reach the unflagged `$`. -/
def numItemMatch (line : Str) : Option Str :=
  let d := line.takeWhile isDigitChar
  if d = [] then none
  else
    match line.drop d.length with
    | p :: c :: cs =>
      if p = '.' && isJsSpace c && cs ≠ [] && ! cs.any isLineTerm then some cs else none
    | _ => none

/-- The numbered-list items (source lines 598-613): the rendered index is
the line's position in the kept lines plus one, taken before the
non-matching lines are filtered away. -/
def numberedItems (b : Str) : List (Nat × Str) :=
  ((tLines b).enum.map (fun p =>
    (numItemMatch p.2).map (fun t => (p.1 + 1, t)))).reduceOption

/-- Table cells of one line (source lines 626-628): split on the bar,
trim each cell, drop the empty ones. -/
def cellsOf (line : Str) : List Str :=
  ((line.splitOn '|').map trimStr).filter (fun c => c ≠ [])

/-- The heading match `/^(#{1,6})\s(.+)$/m` (source line 661): at the
first line start carrying one to six hash marks followed by one
whitespace character (possibly a line terminator itself) and a nonempty
run of dot-matchable characters up to the multiline `$`, that is up to
the next line terminator. -/
def headingMatch (b : Str) : Option (Nat × Str) :=
  (lineAnchors b).findSome? fun a =>
    let h := a.takeWhile (fun c => c = '#')
    if h ≠ [] && h.length ≤ 6 then
      match a.drop h.length with
      | c :: rest =>
        if isJsSpace c then
          let t := rest.takeWhile (fun x => ! isLineTerm x)
          if t ≠ [] then some (h.length, t) else none
        else none
      | [] => none
    else none

/-- The horizontal-rule test `/^---+$/` (source line 686): the whole
section is three or more hyphens. -/
def hrP (b : Str) : Bool := b ≠ [] && b.all (fun c => c = '-') && 3 ≤ b.length

/-- The code-fence test (source line 474): the section contains a triple
backtick. -/
def fenceP (b : Str) : Bool := containsSub [btick, btick, btick] b

/-- The quote test (source line 529): the section starts with `>`. -/
def quoteP (b : Str) : Bool := b.head? = some '>'

/-- The callout test: the callout regex matches. -/
def calloutP (b : Str) : Bool := (calloutMatch b).isSome

/-- The table test (source lines 623-625): a bar, a `---` run, and at
least three nonempty lines. -/
def tableP (b : Str) : Bool :=
  containsSub ['|'] b && containsSub "---".data b && 3 ≤ (tLines b).length

/-- The heading test: the heading regex matches. -/
def headingP (b : Str) : Bool := (headingMatch b).isSome

/-- Branches 7-9 of the section classifier: heading, horizontal rule,
paragraph fallback (source lines 660-697); reached directly and through
the table branch's fall-through. -/
def formatBlockTail (b : Str) : Node :=
  match headingMatch b with
  | some (l, t) => .heading l t
  | none => if hrP b then .rule else .paragraph b

/-- The classifier body applied to one trimmed section (source lines
468-697), with the source's branch order: code fence, quote, callout,
bullet list, numbered list, table (falling through when it has fewer
than three nonempty lines), heading, horizontal rule, paragraph. -/
def formatBlock (b : Str) : Node :=
  if fenceP b then .codeSection (fenceGo (b.length + 1) b)
  else if quoteP b then quoteNode b
  else
    match calloutMatch b with
    | some (e, t, c) => .callout e t (trimStr c) (detectType e t (trimStr c))
    | none =>
      if bulletP b then .bulletList (bulletItems b)
      else if numberedP b then .numberedList (numberedItems b)
      else if containsSub ['|'] b && containsSub "---".data b then
        (let tl := tLines b
         if 3 ≤ tl.length then .table (cellsOf (tl.headD [])) ((tl.drop 2).map cellsOf)
         else formatBlockTail b)
      else formatBlockTail b

/-- `formatMessageContent` (source lines 457-710): `null` for empty or
whitespace-only input, otherwise the trimmed input is split into sections,
each nonempty trimmed section is classified, and the `null` sections are
filtered away. -/
def formatMessageContent (s : String) : Option (List Node) :=
  let cs := trimStr s.data
  if cs = [] then none
  else
    some (((sections cs).map (fun sec =>
      if trimStr sec = [] then none else some (formatBlock (trimStr sec)))).reduceOption)

/-- The `format` interface of the spec: what `MessageFormatter` renders —
`null` from `formatMessageContent` shows as no nodes at all. -/
def format (s : String) : List Node := (formatMessageContent s).getD []

/-! ## Specification-side measurement functions -/

/-- The block kind assigned to a section. -/
inductive BKind where
  | fence | quote | callout | bullet | numbered | table | heading | rule | paragraph
  deriving DecidableEq, Repr

/-- The kind of a produced node. -/
def kindOf : Node → BKind
  | .codeSection _ => .fence
  | .quote _ _ => .quote
  | .callout _ _ _ _ => .callout
  | .bulletList _ => .bullet
  | .numberedList _ => .numbered
  | .table _ _ => .table
  | .heading _ _ => .heading
  | .rule => .rule
  | .paragraph _ => .paragraph

/-- The classification predicates in the spec's fixed precedence order. -/
def precList : List ((Str → Bool) × BKind) :=
  [(fenceP, .fence), (quoteP, .quote), (calloutP, .callout), (bulletP, .bullet),
   (numberedP, .numbered), (tableP, .table), (headingP, .heading), (hrP, .rule)]

/-- First-match evaluation of a predicate/kind table, with the paragraph
fallback. -/
def firstKind : List ((Str → Bool) × BKind) → Str → BKind
  | [], _ => .paragraph
  | pk :: rest, b => if pk.1 b then pk.2 else firstKind rest b

/-- The first kind in the precedence order whose predicate holds, with
the paragraph fallback. -/
def classSpec (b : Str) : BKind := firstKind precList b

/-- The raw text a rendered fragment shows (markup markers stripped). -/
def fragText : Fragment → Str
  | .text s => s
  | .code s => s
  | .link l _ => l
  | .bareUrl s => s
  | .github s => s
  | .email s => s
  | .bold s => s
  | .italic s => s
  | .strike s => s
  | .highlight s => s

/-- The source text a fragment came from, markers reinserted.  Only text
and code fragments ever occur in the formatter's output; the other
reassemblies are the nominal markup forms (for links, the normalized
target stands in for the written one). -/
def fragSource : Fragment → Str
  | .text s => s
  | .code s => btick :: s ++ [btick]
  | .link l h => '[' :: l ++ ']' :: '(' :: h ++ [')']
  | .bareUrl s => s
  | .github s => s
  | .email s => s
  | .bold s => '*' :: '*' :: s ++ ['*', '*']
  | .italic s => '*' :: s ++ ['*']
  | .strike s => '~' :: '~' :: s ++ ['~', '~']
  | .highlight s => '=' :: '=' :: s ++ ['=', '=']

/-- Reassembled source of a fragment list. -/
def joinFrags (l : List Fragment) : Str := (l.map fragSource).flatten

/-- Is a fragment a plain-text or inline-code fragment? -/
def isTextOrCode : Fragment → Bool
  | .text _ => true
  | .code _ => true
  | _ => false

/-- The visible text of an inline-formatted string. -/
def inlineText (s : Str) : Str := ((inlineItems s).map fragText).flatten

/-- The visible text of one rendered node: every payload the renderer
passes through the inline formatter, concatenated. -/
def nodeText : Node → Str
  | .codeSection parts =>
    (parts.map (fun p => match p with | .text t => inlineText t | .code c _ => c)).flatten
  | .quote c a => inlineText c ++ (a.getD [])
  | .callout e t c _ => e ++ inlineText t ++ inlineText c
  | .bulletList items => (items.map (fun p => inlineText p.2)).flatten
  | .numberedList items => (items.map (fun p => inlineText p.2)).flatten
  | .table hs rows =>
    (hs.map inlineText).flatten ++ (rows.map (fun r => (r.map inlineText).flatten)).flatten
  | .heading _ t => inlineText t
  | .rule => []
  | .paragraph t => inlineText t

/-- All the text `format` renders for an input. -/
def displayAll (s : String) : Str := ((format s).map nodeText).flatten

/-- `detectType` as the spec words it: an ordered keyword table over the
leading symbol and the lowercased title and content, first match wins,
default `info`. -/
def calloutRules : List ((Str → Str → Str → Bool) × CalloutKind) :=
  [(fun e t c => containsSub emoWarn1 e || containsSub emoWarn2 e ||
      containsSub "warning".data t || containsSub "warning".data c, .warning),
   (fun e t c => containsSub emoErr1 e || containsSub emoErr2 e ||
      containsSub "error".data t || containsSub "error".data c, .error),
   (fun e t c => containsSub emoSuc1 e || containsSub emoSuc2 e ||
      containsSub "success".data t || containsSub "success".data c, .success),
   (fun e t _ => containsSub emoTip1 e || containsSub emoTip2 e ||
      containsSub "tip".data t || containsSub "note".data t, .tip),
   (fun e t _ => containsSub emoPerf1 e || containsSub emoPerf2 e ||
      containsSub "performance".data t || containsSub "speed".data t, .performance),
   (fun _ t _ => containsSub "analysis".data t || containsSub "result".data t, .info)]

/-- First-match evaluation of the keyword table, defaulting to `info`. -/
def firstRule : List ((Str → Str → Str → Bool) × CalloutKind) → Str → Str → Str → CalloutKind
  | [], _, _, _ => .info
  | r :: rest, e, ts, cs => if r.1 e ts cs then r.2 else firstRule rest e ts cs

/-- The category the keyword table assigns. -/
def keywordCategory (emoji title content : Str) : CalloutKind :=
  firstRule calloutRules emoji (lowerStr title) (lowerStr content)

/-! ## Helper lemmas -/

theorem takeWhile_append_drop (p : Char → Bool) :
    ∀ l : Str, l.takeWhile p ++ l.drop (l.takeWhile p).length = l := by
  intro l
  induction l with
  | nil => rfl
  | cons c r ih =>
    by_cases hc : p c
    · simp [List.takeWhile_cons, hc, ih]
    · simp [List.takeWhile_cons, hc]

theorem drop_takeWhile_stop (p : Char → Bool) :
    ∀ l : Str, (l.takeWhile p).length < l.length →
      ∃ c rest, l.drop (l.takeWhile p).length = c :: rest ∧ p c = false := by
  intro l
  induction l with
  | nil => intro h; simp at h
  | cons c r ih =>
    intro h
    by_cases hc : p c
    · simp only [List.takeWhile_cons, hc, if_true, List.length_cons, List.drop_succ_cons] at h ⊢
      exact ih (by omega)
    · refine ⟨c, r, ?_, by simp [hc]⟩
      simp [List.takeWhile_cons, hc]

theorem drop_len_append (xs ys : Str) : (xs ++ ys).drop xs.length = ys := by
  induction xs with
  | nil => rfl
  | cons c r ih => simp [ih]

theorem attemptCode_spec (prev : Option Char) (s : Str) (f : Fragment) (lc : Char) (post : Str)
    (h : attemptCode prev s = some (f, lc, post)) :
    ∃ content, f = .code content ∧ s = btick :: content ++ btick :: post := by
  cases s with
  | nil => simp [attemptCode] at h
  | cons c rest =>
    simp only [attemptCode] at h
    split at h
    case isTrue hc =>
      split at h
      case isTrue => simp at h
      case isFalse hr =>
        split at h
        case h_2 => simp at h
        case h_1 d rest3 hdrop =>
          rw [hdrop] at h
          have hdec := takeWhile_append_drop (fun x => decide (x ≠ btick) && decide (x ≠ '\n')) rest
          rw [hdrop] at hdec
          split at h
          case isTrue hd =>
            simp only [Option.some.injEq, Prod.mk.injEq] at h
            obtain ⟨hf, hlc, hpost⟩ := h
            refine ⟨rest.takeWhile (fun x => decide (x ≠ btick) && decide (x ≠ '\n')), hf.symm, ?_⟩
            subst hc hd hpost
            conv_lhs => rw [← hdec]
            simp
          case isFalse hd =>
            split at h
            case isFalse => simp at h
            case isTrue hdn =>
              split at h
              case isFalse => simp at h
              case isTrue hlen =>
                simp only [Option.some.injEq, Prod.mk.injEq] at h
                obtain ⟨hf, hlc, hpost⟩ := h
                set u := (d :: rest3).takeWhile (fun x => decide (x ≠ btick)) with hu
                obtain ⟨e, erest, he, hpe⟩ :=
                  drop_takeWhile_stop (fun x => decide (x ≠ btick)) (d :: rest3) hlen
                rw [← hu] at he
                have hebt : e = btick := by
                  simp at hpe
                  exact hpe
                have hudec := takeWhile_append_drop (fun x => decide (x ≠ btick)) (d :: rest3)
                rw [← hu, he] at hudec
                have hpost2 : post = erest := by
                  rw [← hpost, ← hudec, show u.length + 1 = (u ++ [e]).length by simp,
                    show u ++ e :: erest = (u ++ [e]) ++ erest by simp]
                  exact drop_len_append _ _
                refine ⟨rest.takeWhile (fun x => decide (x ≠ btick) && decide (x ≠ '\n')) ++ u,
                  hf.symm, ?_⟩
                subst hc hpost2 hebt
                conv_lhs => rw [← hdec]
                rw [← hudec]
                simp [List.append_assoc]
    case isFalse hc => simp at h

theorem findFrom_code_spec :
    ∀ (s : Str) (prev : Option Char) (pre : Str) (f : Fragment) (lc : Char) (post : Str),
      findFrom attemptCode prev s = some (pre, f, lc, post) →
      ∃ content, f = .code content ∧ s = pre ++ btick :: content ++ btick :: post := by
  intro s
  induction s with
  | nil =>
    intro prev pre f lc post h
    simp [findFrom, attemptCode] at h
  | cons c rest ih =>
    intro prev pre f lc post h
    simp only [findFrom] at h
    cases ha : attemptCode prev (c :: rest) with
    | some r =>
      rw [ha] at h
      obtain ⟨f0, lc0, post0⟩ := r
      simp only [Option.some.injEq, Prod.mk.injEq] at h
      obtain ⟨hpre, hf, hlc, hpost⟩ := h
      obtain ⟨content, hcf, hcs⟩ := attemptCode_spec prev (c :: rest) f0 lc0 post0 ha
      subst hpre hf hlc hpost
      exact ⟨content, hcf, by simpa using hcs⟩
    | none =>
      rw [ha] at h
      cases hrec : findFrom attemptCode (some c) rest with
      | none => rw [hrec] at h; simp at h
      | some r =>
        rw [hrec] at h
        obtain ⟨pre1, f1, lc1, post1⟩ := r
        simp only [Option.map, Option.some.injEq, Prod.mk.injEq] at h
        obtain ⟨hpre, hf, hlc, hpost⟩ := h
        obtain ⟨content, hcf, hcs⟩ := ih (some c) pre1 f1 lc1 post1 hrec
        subst hpre hf hlc hpost
        exact ⟨content, hcf, by simp [hcs]⟩

theorem scanGo_ne_nil (fuel : Nat) (a : Attempt) (prev : Option Char) (s : Str) (h : s ≠ []) :
    scanGo fuel a prev s ≠ [] := by
  cases fuel with
  | zero => simp [scanGo, h]
  | succ n =>
    simp only [scanGo]
    cases hf : findFrom a prev s with
    | none => simp [h]
    | some r =>
      obtain ⟨pre, f, lc, post⟩ := r
      simp

theorem scanGo_code_reconstruct :
    ∀ (fuel : Nat) (prev : Option Char) (s : Str), s.length < fuel →
      joinFrags (scanGo fuel attemptCode prev s) = s := by
  intro fuel
  induction fuel with
  | zero => intro prev s h; omega
  | succ n ih =>
    intro prev s h
    simp only [scanGo]
    cases hf : findFrom attemptCode prev s with
    | none =>
      by_cases hs : s = []
      · simp [hs, joinFrags]
      · simp [hs, joinFrags, fragSource]
    | some r =>
      obtain ⟨pre, f, lc, post⟩ := r
      obtain ⟨content, hcf, hcs⟩ := findFrom_code_spec s prev pre f lc post hf
      have hlen : post.length < n := by
        subst hcs
        simp only [List.length_append, List.length_cons] at h
        omega
      have hrec := ih (some lc) post hlen
      subst hcf hcs
      by_cases hpre : pre = []
      · simp only [hpre, if_true, List.nil_append]
        simp only [joinFrags, List.map_cons, List.flatten_cons, fragSource] at hrec ⊢
        simp [hrec]
      · simp only [hpre, if_false]
        simp only [joinFrags, List.map_cons, List.map_append, List.flatten_cons,
          List.flatten_append, fragSource] at hrec ⊢
        simp [hrec]

theorem scanGo_code_kinds :
    ∀ (fuel : Nat) (prev : Option Char) (s : Str) (f : Fragment),
      f ∈ scanGo fuel attemptCode prev s → isTextOrCode f = true := by
  intro fuel
  induction fuel with
  | zero =>
    intro prev s f h
    simp only [scanGo] at h
    split at h
    · simp at h
    · simp only [List.mem_singleton] at h
      subst h
      rfl
  | succ n ih =>
    intro prev s f h
    simp only [scanGo] at h
    cases hf : findFrom attemptCode prev s with
    | none =>
      rw [hf] at h
      simp at h
      exact h.2 ▸ rfl
    | some r =>
      rw [hf] at h
      obtain ⟨pre, fr, lc, post⟩ := r
      obtain ⟨content, hcf, _⟩ := findFrom_code_spec s prev pre fr lc post hf
      simp only [List.mem_append, List.mem_cons] at h
      rcases h with h | h | h
      · by_cases hpre : pre = []
        · simp [hpre] at h
        · simp only [hpre, if_false, List.mem_singleton] at h
          exact h ▸ rfl
      · subst h hcf
        rfl
      · exact ih (some lc) post f h

theorem applyPass_frags (l : List Fragment) (a : Attempt) : applyPass (.frags l) a = .frags l := rfl

theorem foldl_applyPass_frags :
    ∀ (ps : List Attempt) (l : List Fragment), ps.foldl applyPass (.frags l) = .frags l := by
  intro ps
  induction ps with
  | nil => intro l; rfl
  | cons p rest ih => intro l; exact ih l

theorem inlineItems_eq_scan (s : Str) (h : s ≠ []) :
    inlineItems s = scanParts attemptCode s := by
  have hne : scanParts attemptCode s ≠ [] := scanGo_ne_nil _ _ _ _ h
  unfold inlineItems patterns
  simp only [h, if_false, List.foldl_cons]
  have h1 : applyPass (.str s) attemptCode = .frags (scanParts attemptCode s) := by
    simp only [applyPass, hne, if_false]
  rw [h1]
  simp [applyPass]

theorem takeWhile_append_of_all (p : Char → Bool) :
    ∀ (e r : Str), (∀ x ∈ e, p x = true) → (e ++ r).takeWhile p = e ++ r.takeWhile p := by
  intro e
  induction e with
  | nil => intro r _; rfl
  | cons c rest ih =>
    intro r he
    have hc : p c = true := he c (List.mem_cons_self c rest)
    simp only [List.cons_append, List.takeWhile_cons, hc, if_true]
    rw [ih r (fun x hx => he x (List.mem_cons_of_mem c hx))]

theorem mem_descRange0 (k n : Nat) (h : k ≤ n) : k ∈ descRange0 n := by
  unfold descRange0
  rw [List.mem_reverse, List.mem_range]
  omega

theorem findSome?_isSome_of_mem {α β : Type} (f : α → Option β) :
    ∀ (l : List α) (x : α), x ∈ l → (f x).isSome → (l.findSome? f).isSome := by
  intro l
  induction l with
  | nil => intro x hx; simp at hx
  | cons a rest ih =>
    intro x hx hfx
    rw [List.findSome?_cons]
    cases hfa : f a with
    | some v => simp
    | none =>
      rcases List.mem_cons.mp hx with h | h
      · subst h
        rw [hfa] at hfx
        simp at hfx
      · exact ih x h hfx

theorem findClose2_star :
    ∀ (t c : Str), ∃ t2 c2 t3, findClose2 '*' '*' (t ++ '*' :: '*' :: c) = some (t2, c2) ∧
      t = t2 ++ t3 := by
  intro t
  induction t with
  | nil =>
    intro c
    refine ⟨[], c, [], ?_, rfl⟩
    simp [findClose2]
  | cons u t ih =>
    intro c
    by_cases hcond : (u = '*' && ((t ++ '*' :: '*' :: c).head? = some '*' : Bool)) = true
    · refine ⟨[], (t ++ '*' :: '*' :: c).tail, u :: t, ?_, by simp⟩
      simp only [List.cons_append, findClose2, List.append_eq, hcond, if_true]
    · obtain ⟨t2, c2, t3, hfind, hdec⟩ := ih c
      refine ⟨u :: t2, c2, t3, ?_, by simp [hdec]⟩
      simp only [List.cons_append, findClose2, List.append_eq]
      rw [if_neg hcond, hfind]
      rfl

theorem map_reduceOption_eq_filterMap {α β : Type} (f : α → Option β) :
    ∀ l : List α, (l.map f).reduceOption = l.filterMap f := by
  intro l
  induction l with
  | nil => rfl
  | cons a rest ih =>
    cases hfa : f a with
    | none => simp [List.reduceOption, hfa, ih, List.filterMap_cons]
    | some v => simp [List.reduceOption, hfa, ih, List.filterMap_cons]

/-! ## Claim theorems -/

/-- C1, counterexample: the claim that no characters are dropped outside
recognized markers, and in particular that non-matching lines of a
heading block still appear, fails: in `"# T\nbody"` the second line is a
heading block's non-matching line, yet no fragment of the output contains
its characters — the letter `b` occurs in the input and nowhere in the
rendered text. -/
theorem c1_counterexample :
    ('b' ∈ "# T\nbody".data) ∧ ('b' ∉ displayAll "# T\nbody") := by
  constructor
  · decide
  · decide

/-- C1 (amended): `format` is total, and the inline formatter itself drops
nothing: reassembling the fragments of `formatInlineText` (reinserting the
code-span backticks) gives back exactly the input, for every string.
Block-level processing, however, does drop lines: a block classified as a
heading keeps only the first matching heading line, as the second
conjunct states (and lists and quotes likewise keep only matching
lines). -/
theorem c1_inline_preservation :
    (∀ s : Str, joinFrags (inlineItems s) = s) ∧
    (∀ (b t : Str) (l : Nat), fenceP b = false → quoteP b = false → calloutMatch b = none →
      bulletP b = false → numberedP b = false →
      (containsSub ['|'] b && containsSub "---".data b) = false →
      headingMatch b = some (l, t) → formatBlock b = .heading l t) := by
  constructor
  · intro s
    by_cases hs : s = []
    · simp [hs, inlineItems, joinFrags]
    · rw [inlineItems_eq_scan s hs]
      exact scanGo_code_reconstruct _ none s (by omega)
  · intro b t l h1 h2 h3 h4 h5 h6 h7
    unfold formatBlock formatBlockTail
    simp [h1, h2, h3, h4, h5, h6, h7]

/-- C1, witness for the amended theorem's hypotheses. -/
theorem c1_inline_preservation_witness :
    formatBlock "## H\nrest".data = .heading 2 "H".data :=
  c1_inline_preservation.2 "## H\nrest".data "H".data 2 (by decide) (by decide) (by decide)
    (by decide) (by decide) (by decide) (by decide)

/-- C2: the code does not produce the claimed paragraph with Bold, Text
and Italic fragments for `"**bold** and *italic*"`.  The block classifier
matches the callout regex with an empty leading symbol, and the inline
bold and italic passes are dead (see the sequential-pass invariant), so
even the title and content payloads stay plain text. -/
theorem c2_actual_output :
    format "**bold** and *italic*" =
      [.callout [] "bold".data "and *italic*".data .info] ∧
    inlineItems "bold".data = [.text "bold".data] ∧
    inlineItems "and *italic*".data = [.text "and *italic*".data] := by
  refine ⟨by decide, by decide, by decide⟩

/-- C3: no Link fragment is produced for `"[click](example.com)"`; the
paragraph's inline pass leaves one plain-text fragment, because the link
pattern is a dead pass.  The normalization the claim describes does live
in the (unreachable) link component: scanning with the link pattern alone
would yield the Link fragment with href `https://example.com`, and the
normalization function maps `example.com` to `https://example.com`. -/
theorem c3_actual_output :
    format "[click](example.com)" = [.paragraph "[click](example.com)".data] ∧
    inlineItems "[click](example.com)".data = [.text "[click](example.com)".data] ∧
    scanParts attemptLink "[click](example.com)".data =
      [.link "click".data "https://example.com".data] ∧
    normalizeUrl "example.com".data = "https://example.com".data := by
  refine ⟨by decide, by decide, by decide, by decide⟩

/-- C5: the code-fence example: one code block with language `js` and
content `const x = 1;`. -/
theorem c5_code_fence :
    format "```js\nconst x = 1;\n```" =
      [.codeSection [.code "const x = 1;".data "js".data]] := by
  decide

/-- C9: the empty input produces the empty node sequence (the internal
`formatMessageContent` returns the null marker, which the component
renders as nothing). -/
theorem c9_empty_input :
    format "" = [] ∧ formatMessageContent "" = none := by
  refine ⟨by decide, by decide⟩

/-- C10: in the inline formatter, for every nonempty input the first
(code-span) pass turns the working value into a fragment array even
without a match; every pass maps an array to itself unchanged; hence the
output contains only plain-text and inline-code fragments, never Link,
bare-URL, GitHub, email, Bold, Italic, Strikethrough or Highlight
fragments. -/
theorem c10_dead_passes (s : Str) (h : s ≠ []) :
    (∃ l, l ≠ [] ∧ applyPass (.str s) attemptCode = .frags l) ∧
    (∀ (a : Attempt) (l : List Fragment), applyPass (.frags l) a = .frags l) ∧
    (∀ f ∈ inlineItems s, isTextOrCode f = true) := by
  have hne : scanParts attemptCode s ≠ [] := scanGo_ne_nil _ _ _ _ h
  refine ⟨⟨scanParts attemptCode s, hne, ?_⟩, fun a l => rfl, ?_⟩
  · simp only [applyPass, hne, if_false]
  · intro f hf
    rw [inlineItems_eq_scan s h] at hf
    exact scanGo_code_kinds _ _ _ f hf

/-- C10, witness. -/
theorem c10_dead_passes_witness : isTextOrCode (Fragment.text "q".data) = true :=
  (c10_dead_passes "q".data (by decide)).2.2 (Fragment.text "q".data) (by decide)

theorem kindOf_tail (b : Str) :
    kindOf (formatBlockTail b) = firstKind [(headingP, BKind.heading), (hrP, BKind.rule)] b := by
  unfold formatBlockTail
  cases hh : headingMatch b with
  | some r =>
    obtain ⟨l, t⟩ := r
    simp [firstKind, headingP, hh, kindOf]
  | none =>
    by_cases hr : hrP b = true
    · simp [firstKind, headingP, hh, hr, kindOf]
    · simp [firstKind, headingP, hh, hr, kindOf]

/-- C4: block classification is total and mutually exclusive — the
classifier is a function, and the kind it assigns to every block is the
first kind whose predicate holds in the fixed precedence order code
fence, quote, callout, bullet list, numbered list, table, heading,
horizontal rule, with the paragraph fallback. -/
theorem c4_classification (b : Str) : kindOf (formatBlock b) = classSpec b := by
  have hquote : kindOf (quoteNode b) = BKind.quote := by
    unfold quoteNode
    split <;> rfl
  have htail : kindOf (formatBlockTail b) =
      (if headingP b = true then BKind.heading
       else if hrP b = true then BKind.rule else BKind.paragraph) := by
    rw [kindOf_tail]
    simp only [firstKind]
  unfold formatBlock classSpec precList
  simp only [firstKind]
  by_cases h1 : fenceP b = true
  · simp only [h1, if_true]
    rfl
  · rw [Bool.not_eq_true] at h1
    simp only [h1, Bool.false_eq_true, if_false]
    by_cases h2 : quoteP b = true
    · simp only [h2, if_true, hquote]
    · rw [Bool.not_eq_true] at h2
      simp only [h2, Bool.false_eq_true, if_false]
      cases hm : calloutMatch b with
      | some r =>
        obtain ⟨e, t, c⟩ := r
        simp only [calloutP, hm, Option.isSome_some, if_true]
        rfl
      | none =>
        simp only [calloutP, hm, Option.isSome_none, Bool.false_eq_true, if_false]
        by_cases h4 : bulletP b = true
        · simp only [h4, if_true]
          rfl
        · rw [Bool.not_eq_true] at h4
          simp only [h4, Bool.false_eq_true, if_false]
          by_cases h5 : numberedP b = true
          · simp only [h5, if_true]
            rfl
          · rw [Bool.not_eq_true] at h5
            simp only [h5, Bool.false_eq_true, if_false]
            split
            next h6 =>
              split
              next h7 =>
                have ht : tableP b = true := by
                  simp only [tableP]
                  rw [h6]
                  simp [h7]
                simp only [ht, if_true]
                rfl
              next h7 =>
                have ht : tableP b = false := by
                  simp only [tableP]
                  rw [h6]
                  simp [h7]
                simp only [ht, Bool.false_eq_true, if_false]
                exact htail
            next h6 =>
              rw [Bool.not_eq_true] at h6
              have ht : tableP b = false := by
                simp only [tableP]
                rw [h6]
                simp
              simp only [ht, Bool.false_eq_true, if_false]
              exact htail

/-- C6: the table example produces headers `H1`, `H2` and the single body
row `a`, `b`; and in general, for every block the classifier reaches as a
table, the first nonempty line gives the header cells (split on the bar,
trimmed, empty cells dropped), the second line is discarded, and each
remaining line gives one body row under the same rule. -/
theorem c6_table :
    format "| H1 | H2 |\n|---|---|\n| a | b |" =
      [.table ["H1".data, "H2".data] [["a".data, "b".data]]] ∧
    (∀ b, fenceP b = false → quoteP b = false → calloutMatch b = none →
      bulletP b = false → numberedP b = false → tableP b = true →
      formatBlock b = .table (cellsOf ((tLines b).headD []))
        (((tLines b).drop 2).map cellsOf)) := by
  constructor
  · decide
  · intro b h1 h2 h3 h4 h5 h6
    unfold tableP at h6
    rw [Bool.and_eq_true] at h6
    obtain ⟨hab, hdec⟩ := h6
    have hl : 3 ≤ (tLines b).length := of_decide_eq_true hdec
    unfold formatBlock
    simp only [h1, h2, h3, h4, h5, Bool.false_eq_true, if_false]
    rw [if_pos hab, if_pos hl]

/-- C6, witness for the general part's hypotheses. -/
theorem c6_table_witness :
    formatBlock "| H1 | H2 |\n|---|---|\n| a | b |".data =
      .table (cellsOf ((tLines "| H1 | H2 |\n|---|---|\n| a | b |".data).headD []))
        (((tLines "| H1 | H2 |\n|---|---|\n| a | b |".data).drop 2).map cellsOf) :=
  c6_table.2 _ (by decide) (by decide) (by decide) (by decide) (by decide) (by decide)

/-- C7, counterexample: in `"1. a\nx\n2. b"` the second item is rendered
with index 3, not its 1-based position 2 among the items — a non-matching
interleaved line shifts the rendered indices. -/
theorem c7_counterexample :
    format "1. a\nx\n2. b" = [.numberedList [(1, "a".data), (3, "b".data)]] ∧
    format "1. a\nx\n2. b" ≠ [.numberedList [(1, "a".data), (2, "b".data)]] := by
  refine ⟨by decide, by decide⟩

/-- C7 (amended): for every block classified as a numbered list, each
item's text is everything after its first number-dot-whitespace marker,
and the index rendered for an item is one plus the position of its source
line among the block's nonempty lines — independent of the literal
numbers in the source, but shifted by non-matching interleaved lines. -/
theorem c7_amended_indices :
    ∀ b, fenceP b = false → quoteP b = false → calloutMatch b = none →
      bulletP b = false → numberedP b = true →
      formatBlock b = .numberedList
        ((tLines b).enum.filterMap (fun p => (numItemMatch p.2).map (fun t => (p.1 + 1, t)))) := by
  intro b h1 h2 h3 h4 h5
  unfold formatBlock numberedItems
  simp only [h1, h2, h3, h4, h5, Bool.false_eq_true, if_false, if_true]
  rw [map_reduceOption_eq_filterMap]

/-- C7, witness for the amended theorem's hypotheses. -/
theorem c7_amended_indices_witness :
    formatBlock "1. p\nq\n2. r".data = .numberedList
      ((tLines "1. p\nq\n2. r".data).enum.filterMap
        (fun p => (numItemMatch p.2).map (fun t => (p.1 + 1, t)))) :=
  c7_amended_indices _ (by decide) (by decide) (by decide) (by decide) (by decide)

/-- C8, counterexample: `"abc **T** x"` has a nonempty non-whitespace
leading run before a bold-delimited title, yet the code classifies it as
a paragraph, not a callout — the source's symbol class excludes word
characters. -/
theorem c8_counterexample :
    format "abc **T** x" = [.paragraph "abc **T** x".data] ∧
    (∀ n ∈ format "abc **T** x", kindOf n ≠ .callout) := by
  refine ⟨by decide, by decide⟩

/-- C8 (amended): every block, not already taken by the code-fence or
quote branches, of the form symbol-run, whitespace, bold-delimited title,
rest — where the symbol run is a possibly empty run of characters that
are neither whitespace nor word characters and the title part carries no
line terminator — is classified as a callout; the callout branch emits the
captured symbol, title and trimmed content with the detected category;
and the detected category is exactly the first match of the fixed keyword
table over the symbol and the lowercased title and content (the content
participates in the warning, error and success rules), defaulting to
info. -/
theorem c8_amended_callouts :
    (∀ (b e w t c : Str), (∀ x ∈ e, isSymbolChar x = true) → (∀ x ∈ w, isJsSpace x = true) →
      (∀ x ∈ t, isLineTerm x = false) → b = e ++ (w ++ ('*' :: '*' :: (t ++ ('*' :: '*' :: c)))) →
      fenceP b = false → quoteP b = false → kindOf (formatBlock b) = .callout) ∧
    (∀ (b e t c : Str), fenceP b = false → quoteP b = false →
      calloutMatch b = some (e, t, c) →
      formatBlock b = .callout e t (trimStr c) (detectType e t (trimStr c))) ∧
    (∀ e t c : Str, detectType e t c = keywordCategory e t c) := by
  refine ⟨?_, ?_, ?_⟩
  · intro b e w t c he hw ht hb h1 h2
    have hsome : (calloutMatch b).isSome = true := by
      unfold calloutMatch
      apply findSome?_isSome_of_mem _ _ e.length
      · apply mem_descRange0
        rw [hb, takeWhile_append_of_all isSymbolChar e _ he]
        simp
      · simp only [calloutAttempt]
        rw [hb, drop_len_append, takeWhile_append_of_all isJsSpace w _ hw]
        have hstar : ('*' :: '*' :: (t ++ ('*' :: '*' :: c))).takeWhile isJsSpace = [] := by
          rw [List.takeWhile_cons]
          simp [show isJsSpace '*' = false from by decide]
        rw [hstar, List.append_nil, drop_len_append]
        obtain ⟨t2, c2, t3, hfind, hteq⟩ := findClose2_star t c
        have htake : ('*' :: '*' :: (t ++ ('*' :: '*' :: c))).take 2 = ['*', '*'] := rfl
        rw [if_pos htake]
        have hdrop2 : ('*' :: '*' :: (t ++ ('*' :: '*' :: c))).drop 2 = t ++ '*' :: '*' :: c := rfl
        rw [hdrop2, hfind]
        have hfor : ∀ x ∈ t2, isLineTerm x = false :=
          fun x hx => ht x (hteq ▸ List.mem_append_left t3 hx)
        have hany : t2.any isLineTerm = false := by
          rw [Bool.eq_false_iff]
          intro hc
          rw [List.any_eq_true] at hc
          obtain ⟨x, hx, hpx⟩ := hc
          rw [hfor x hx] at hpx
          simp at hpx
        simp [hany]
    unfold formatBlock
    simp only [h1, h2, Bool.false_eq_true, if_false]
    cases hm : calloutMatch b with
    | none => rw [hm] at hsome; simp at hsome
    | some r =>
      obtain ⟨e2, t2, c2⟩ := r
      simp [hm, kindOf]
  · intro b e t c h1 h2 h3
    unfold formatBlock
    simp only [h1, h2, h3, Bool.false_eq_true, if_false]
  · intro e t c
    rfl

/-- C8, witness for the amended theorem's hypotheses. -/
theorem c8_amended_callouts_witness :
    formatBlock "! **Warning** be careful".data =
      .callout "!".data "Warning".data (trimStr "be careful".data)
        (detectType "!".data "Warning".data (trimStr "be careful".data)) :=
  c8_amended_callouts.2.1 "! **Warning** be careful".data "!".data "Warning".data
    "be careful".data (by decide) (by decide) (by decide)

end MsgFmt
